import Mathlib

/-!
Shallow embedding of the uniOS bootstrap layer (loader.s, kernel.cpp,
linker-provided symbols) and proofs about it.

The embedding follows the source:
  * the Multiboot header constants come from the `.set` directives of
    loader.s (`MAGIC`, `FLAGS`, `CHECKSUM`);
  * `callConstructors` (kernel.cpp) walks the 4-byte slots between the
    addresses of `start_ctors` and `end_ctors`, invoking each slot;
  * `printf` (kernel.cpp) writes each character of a null-terminated
    string into the low byte of consecutive 16-bit VGA cells, where the
    C expression `(VideoMemory[i] & 0xFF00) | str[i]` promotes the
    signed `char` to `int` (sign extension) before the bitwise or;
  * the boot machine models the instruction sequence of loader.s
    (`mov $kernel_stack, %esp; push %eax; push %ebx; call kernelMain`)
    followed by the body of `kernelMain` (emit the diagnostic, then
    `while(1);`), as a small-step transition system on a machine state.
-/

namespace UniOS

/-! ## Multiboot boot header (loader.s `.multiboot` section) -/

/-- `.set MAGIC, 0x1badb002` in loader.s. -/
def MAGIC : Nat := 0x1badb002

/-- `.set FLAGS, (1<<0 | 1<<1)` in loader.s. -/
def FLAGS : Nat := (1 <<< 0) ||| (1 <<< 1)

/-- `.set CHECKSUM, -(MAGIC + FLAGS)` in loader.s: the negation is taken as
a 32-bit word, i.e. modulo 2^32. -/
def CHECKSUM : Nat := (2 ^ 32 - (MAGIC + FLAGS) % 2 ^ 32) % 2 ^ 32

/-- The four bytes of a 32-bit word as emitted little-endian by
`.long` on an i386 target. -/
def leBytes (x : Nat) : List Nat :=
  [x % 256, x / 256 % 256, x / 256 ^ 2 % 256, x / 256 ^ 3 % 256]

/-! ## Constructor invoker (kernel.cpp `callConstructors`)

`for (constructor* i = &start_ctors; i != &end_ctors; i++) (*i)();`

Addresses are natural numbers; a `constructor*` slot is 4 bytes wide on
the i386 target, so `i++` advances the address by 4.  `ctorMem a` is the
function-pointer value stored in the slot at address `a`.  The loop is
embedded with explicit fuel (an upper bound on the number of iterations):
`none` means the bound was not enough, i.e. the loop has not terminated
within `fuel` iterations.  The returned list is the trace of invoked
function-pointer values, in the order the loop invokes them. -/

def ctorLoop (ctorMem : Nat → Nat) : Nat → Nat → Nat → Option (List Nat)
  | 0, i, e => if i = e then some [] else none
  | fuel + 1, i, e =>
    if i = e then some []
    else
      match ctorLoop ctorMem fuel (i + 4) e with
      | some t => some (ctorMem i :: t)
      | none => none

/-- `callConstructors` run with a given iteration bound: walk from the
address of `start_ctors` to the address of `end_ctors`. -/
def callConstructors (ctorMem : Nat → Nat) (startCtors endCtors fuel : Nat) :
    Option (List Nat) :=
  ctorLoop ctorMem fuel startCtors endCtors

theorem ctorLoop_self (ctorMem : Nat → Nat) (fuel e : Nat) :
    ctorLoop ctorMem fuel e e = some [] := by
  cases fuel <;> simp [ctorLoop]

/-- Unfolding one iteration of the constructor loop. -/
theorem ctorLoop_succ (ctorMem : Nat → Nat) (fuel i e : Nat) (h : i ≠ e) :
    ctorLoop ctorMem (fuel + 1) i e =
      match ctorLoop ctorMem fuel (i + 4) e with
      | some t => some (ctorMem i :: t)
      | none => none := by
  simp [ctorLoop, h]

/-- With fuel `N`, the loop over the table `[start, start + 4*N)` returns
the trace of all `N` slots, in ascending address order. -/
theorem ctorLoop_table (ctorMem : Nat → Nat) (start : Nat) :
    ∀ N : Nat, ctorLoop ctorMem N start (start + 4 * N) =
      some ((List.range N).map fun k => ctorMem (start + 4 * k)) := by
  intro N
  induction N generalizing start with
  | zero => simp [ctorLoop_self]
  | succ n ih =>
    have hne : start ≠ start + 4 * (n + 1) := by omega
    have harg : start + 4 + 4 * n = start + 4 * (n + 1) := by ring
    have h1 : ctorLoop ctorMem n (start + 4) (start + 4 * (n + 1)) =
        some ((List.range n).map fun k => ctorMem (start + 4 + 4 * k)) := by
      rw [← harg]; exact ih (start + 4)
    rw [ctorLoop_succ ctorMem n start _ hne, h1]
    simp [List.range_succ_eq_map, List.map_map, Function.comp]
    intro a _
    ring_nf

/-! ## VGA text output (kernel.cpp `printf`)

`void printf(char* str){ ... for (int i = 0; str[i] != 0; i++)
  VideoMemory[i] = (VideoMemory[i] & 0xFF00) | str[i]; }`

A VGA cell is a 16-bit word: low byte character, high byte attribute.
`str[i]` has type `char`, which is signed on the i386 target (the
Makefile passes no `-funsigned-char`, and types.h uses plain `char` as
`int8_t`).  In the expression the `char` is promoted to a 32-bit `int`
with sign extension before the bitwise or, and the result is converted
back to `uint16_t` modulo 2^16. -/

/-- Integer promotion of a `char` holding byte `b` (0 ≤ b < 256) to a
32-bit `int`, represented as the two's-complement 32-bit word. -/
def promoteChar (b : Nat) : Nat :=
  if b < 128 then b else 0xFFFFFF00 + b

/-- The value stored by one iteration of the `printf` loop into a cell
currently holding `v`, for string byte `b`:
`(v & 0xFF00) | (int)b`, truncated to 16 bits by the `uint16_t` store. -/
def printfStore (v b : Nat) : Nat :=
  ((v &&& 0xFF00) ||| promoteChar b) % 2 ^ 16

/-- The `printf` loop for a string given as the list of its bytes before
the terminating null, writing cells `i, i+1, ...` of the video memory. -/
def printfList : List Nat → Nat → (Nat → Nat) → (Nat → Nat)
  | [], _, video => video
  | c :: cs, i, video =>
    printfList cs (i + 1) (fun j => if j = i then printfStore (video i) c else video j)

/-- The `printf` loop for a string given as its byte image `str` (the
byte at each index), with explicit fuel bounding the number of
iterations: `none` means the loop did not reach the null terminator
within `fuel` iterations. -/
def printfLoop (str : Nat → Nat) : Nat → Nat → (Nat → Nat) → Option (Nat → Nat)
  | 0, i, video => if str i = 0 then some video else none
  | fuel + 1, i, video =>
    if str i = 0 then some video
    else printfLoop str fuel (i + 1)
      (fun j => if j = i then printfStore (video i) (str i) else video j)

/-- `printf(str)` starting at cell 0, with an iteration bound. -/
def printf (str : Nat → Nat) (video : Nat → Nat) (fuel : Nat) :
    Option (Nat → Nat) :=
  printfLoop str fuel 0 video

/-- The diagnostic message literal of `kernelMain`. -/
def helloMsg : String := "Hello World --- http://www.AlgorithMan.de"

/-- Its bytes (all ASCII, hence < 128). -/
def helloBytes : List Nat := helloMsg.toList.map Char.toNat

/-! ## The boot machine (loader.s + kernelMain)

loader.s executes, in order:
`loader: mov $kernel_stack, %esp; push %eax; push %ebx; call kernelMain`
and would fall through to `_stop: cli; hlt; jmp _stop` only if
`kernelMain` returned.  `kernelMain` calls `printf("Hello World ...")`
and then runs `while(1);`.  We model this as a small-step machine whose
locations are the control points of that instruction sequence.  Note
that loader.s contains no `call callConstructors` instruction. -/

/-- Control locations of the boot path. -/
inductive Loc where
  | lMov      -- `loader:` about to execute `mov $kernel_stack, %esp`
  | lPushEax  -- about to execute `push %eax`
  | lPushEbx  -- about to execute `push %ebx`
  | lCall     -- about to execute `call kernelMain`
  | kMain     -- first instruction of `kernelMain` (the printf call)
  | kLoop     -- the `while(1);` loop
  | sStop     -- `_stop: cli; hlt; jmp _stop`
  deriving DecidableEq, Repr

/-- Machine state: control location, the three registers the boot path
touches, the stack memory (addressed bytes written in 32-bit words at
their low address) and the VGA cell array. -/
@[ext]
structure Mach where
  loc : Loc
  esp : Nat
  eax : Nat
  ebx : Nat
  stack : Nat → Nat
  video : Nat → Nat

/-- Observable events of a step. -/
inductive Event where
  | enterKernelMain          -- the `call kernelMain` transfer
  | diagnosticEmitted        -- kernelMain's printf of the fixed message
  | ctorInvoked (f : Nat)    -- invocation of a constructor-table entry
  deriving DecidableEq, Repr

/-- `push %r` on i386: esp decreases by 4 modulo 2^32 and the value is
stored at the new esp. -/
def pushWord (s : Mach) (v : Nat) : Mach :=
  let e := (s.esp + 2 ^ 32 - 4) % 2 ^ 32
  { s with esp := e, stack := fun a => if a = e then v else s.stack a }

/-- One step of the boot machine.  `kstack` is the address of the
`kernel_stack` symbol; `retAddr` is the return address pushed by
`call kernelMain` (the address of `_stop`). -/
def bootStep (kstack retAddr : Nat) (s : Mach) : Mach × Option Event :=
  match s.loc with
  | .lMov => ({ s with esp := kstack % 2 ^ 32, loc := .lPushEax }, none)
  | .lPushEax => ({ pushWord s s.eax with loc := .lPushEbx }, none)
  | .lPushEbx => ({ pushWord s s.ebx with loc := .lCall }, none)
  | .lCall => ({ pushWord s retAddr with loc := .kMain }, some .enterKernelMain)
  | .kMain =>
    ({ s with video := printfList helloBytes 0 s.video, loc := .kLoop },
      some .diagnosticEmitted)
  | .kLoop => (s, none)
  | .sStop => (s, none)

/-- `n` steps of the boot machine. -/
def bootRun (kstack retAddr : Nat) : Nat → Mach → Mach
  | 0, s => s
  | n + 1, s => bootRun kstack retAddr n (bootStep kstack retAddr s).1

/-- The events emitted during the first `n` steps. -/
def bootEvents (kstack retAddr : Nat) : Nat → Mach → List Event
  | 0, _ => []
  | n + 1, s =>
    match bootStep kstack retAddr s with
    | (s', some e) => e :: bootEvents kstack retAddr n s'
    | (s', none) => bootEvents kstack retAddr n s'

/-- The machine state at a cold hardware reset, about to execute the
first instruction of `loader`: registers as delivered by the
bootloader (`eax` magic, `ebx` multiboot pointer), `esp` arbitrary. -/
def coldState (esp0 eax ebx : Nat) (stack video : Nat → Nat) : Mach :=
  { loc := .lMov, esp := esp0, eax := eax, ebx := ebx,
    stack := stack, video := video }

/-- Address of the `kernel_stack` symbol: the label placed directly
after the `.space 2*1024*1024` reservation in `.bss`, i.e. the highest
address of the 2 MiB Reserved Stack Region. -/
def kernelStackAddr (bssStart : Nat) : Nat := bssStart + 2 * 1024 * 1024

theorem bootRun_succ (kstack retAddr n : Nat) (s : Mach) :
    bootRun kstack retAddr (n + 1) s =
      bootRun kstack retAddr n (bootStep kstack retAddr s).1 := rfl

theorem bootRun_add (kstack retAddr a b : Nat) (s : Mach) :
    bootRun kstack retAddr (a + b) s =
      bootRun kstack retAddr b (bootRun kstack retAddr a s) := by
  induction a generalizing s with
  | zero => simp [bootRun]
  | succ n ih =>
    rw [show n + 1 + b = n + b + 1 by omega]
    simp only [bootRun]
    exact ih _

/-- The boot path as a step *relation*: one constructor per instruction
of loader.s and per control point of kernelMain, mirroring `bootStep`. -/
inductive BootRel (kstack retAddr : Nat) : Mach → Mach → Prop where
  | movStep : ∀ s, s.loc = .lMov →
      BootRel kstack retAddr s { s with esp := kstack % 2 ^ 32, loc := .lPushEax }
  | pushEaxStep : ∀ s, s.loc = .lPushEax →
      BootRel kstack retAddr s { pushWord s s.eax with loc := .lPushEbx }
  | pushEbxStep : ∀ s, s.loc = .lPushEbx →
      BootRel kstack retAddr s { pushWord s s.ebx with loc := .lCall }
  | callStep : ∀ s, s.loc = .lCall →
      BootRel kstack retAddr s { pushWord s retAddr with loc := .kMain }
  | kmainStep : ∀ s, s.loc = .kMain →
      BootRel kstack retAddr s
        { s with video := printfList helloBytes 0 s.video, loc := .kLoop }
  | loopStep : ∀ s, s.loc = .kLoop → BootRel kstack retAddr s s
  | stopStep : ∀ s, s.loc = .sStop → BootRel kstack retAddr s s

/-- The step relation is deterministic: a state has at most one successor. -/
theorem bootRel_det (kstack retAddr : Nat) (s t t' : Mach)
    (h1 : BootRel kstack retAddr s t) (h2 : BootRel kstack retAddr s t') :
    t = t' := by
  cases h1 <;> cases h2 <;> simp_all

/-- The step function realises the step relation. -/
theorem bootRel_of_step (kstack retAddr : Nat) (s : Mach) :
    BootRel kstack retAddr s (bootStep kstack retAddr s).1 := by
  cases h : s.loc
  case lMov => simp only [bootStep, h]; exact .movStep s h
  case lPushEax => simp only [bootStep, h]; exact .pushEaxStep s h
  case lPushEbx => simp only [bootStep, h]; exact .pushEbxStep s h
  case lCall => simp only [bootStep, h]; exact .callStep s h
  case kMain => simp only [bootStep, h]; exact .kmainStep s h
  case kLoop => simp only [bootStep, h]; exact .loopStep s h
  case sStop => simp only [bootStep, h]; exact .stopStep s h

theorem bootRun_succ_last (kstack retAddr n : Nat) (s : Mach) :
    bootRun kstack retAddr (n + 1) s =
      (bootStep kstack retAddr (bootRun kstack retAddr n s)).1 := by
  rw [bootRun_add kstack retAddr n 1 s]; rfl

/-- 32-bit wraparound subtraction of 4 is plain subtraction below 2^32. -/
theorem wrap_sub4 (x : Nat) (h4 : 4 ≤ x) (h32 : x < 2 ^ 32) :
    (x + 2 ^ 32 - 4) % 2 ^ 32 = x - 4 := by
  rw [show x + 2 ^ 32 - 4 = (x - 4) + 2 ^ 32 by omega, Nat.add_mod_right]
  exact Nat.mod_eq_of_lt (by omega)

/-- The state after the four loader.s instructions, for a stack-top
address that fits in 32 bits. -/
theorem run4_eq (kstack retAddr esp0 eax ebx : Nat) (stack video : Nat → Nat)
    (h12 : 12 ≤ kstack) (h32 : kstack < 2 ^ 32) :
    bootRun kstack retAddr 4 (coldState esp0 eax ebx stack video) =
      { loc := .kMain, esp := kstack - 12, eax := eax, ebx := ebx,
        stack := fun a =>
          if a = kstack - 12 then retAddr
          else if a = kstack - 8 then ebx
          else if a = kstack - 4 then eax
          else stack a,
        video := video } := by
  have h1 : kstack % 2 ^ 32 = kstack := Nat.mod_eq_of_lt h32
  have h2 : (kstack + 2 ^ 32 - 4) % 2 ^ 32 = kstack - 4 := wrap_sub4 _ (by omega) h32
  have h3 : (kstack - 4 + 2 ^ 32 - 4) % 2 ^ 32 = kstack - 8 := by
    rw [wrap_sub4 _ (by omega) (by omega)]; omega
  have h4 : (kstack - 8 + 2 ^ 32 - 4) % 2 ^ 32 = kstack - 12 := by
    rw [wrap_sub4 _ (by omega) (by omega)]; omega
  simp only [bootRun, bootStep, coldState, pushWord, h1, h2, h3, h4]

/-- The `while(1);` state is a fixed point of the machine. -/
theorem bootRun_loop_fixed (kstack retAddr : Nat) (s : Mach)
    (h : s.loc = .kLoop) : ∀ n, bootRun kstack retAddr n s = s := by
  intro n
  induction n with
  | zero => rfl
  | succ m ih =>
    rw [bootRun_succ_last, ih]
    simp [bootStep, h]

/-- No step of the boot machine emits a constructor-invocation event:
loader.s contains no `call callConstructors` instruction (nor does any
other code on the boot path call it). -/
theorem no_ctor_event (kstack retAddr f : Nat) :
    ∀ (n : Nat) (s : Mach),
      Event.ctorInvoked f ∉ bootEvents kstack retAddr n s := by
  intro n
  induction n with
  | zero => intro s; simp [bootEvents]
  | succ m ih =>
    intro s
    cases h : s.loc <;> simp [bootEvents, bootStep, h, ih]

/-- The event trace of the four loader.s instructions: only the
`call kernelMain` transfer is observed. -/
theorem bootEvents_four (kstack retAddr esp0 eax ebx : Nat)
    (stack video : Nat → Nat) :
    bootEvents kstack retAddr 4 (coldState esp0 eax ebx stack video) =
      [Event.enterKernelMain] := by
  simp [bootEvents, bootStep, coldState, pushWord]

/-! ## Termination lemmas for the two loops -/

/-- If the first null byte (from index `i`) is `n` positions away, the
`printf` loop starting at `i` finishes within `n` iterations. -/
theorem printfLoop_terminates (str : Nat → Nat) :
    ∀ (n i : Nat) (video : Nat → Nat), str (i + n) = 0 →
      (∀ k < n, str (i + k) ≠ 0) →
      ∃ v, printfLoop str n i video = some v := by
  intro n
  induction n with
  | zero => intro i video h0 _; exact ⟨video, by simpa [printfLoop] using h0⟩
  | succ m ih =>
    intro i video h0 hk
    have hi : str i ≠ 0 := by simpa using hk 0 (by omega)
    have h0' : str (i + 1 + m) = 0 := by rw [show i + 1 + m = i + (m + 1) by omega]; exact h0
    have hk' : ∀ k < m, str (i + 1 + k) ≠ 0 := by
      intro k hkm
      rw [show i + 1 + k = i + (k + 1) by omega]
      exact hk (k + 1) (by omega)
    obtain ⟨v, hv⟩ := ih (i + 1)
      (fun j => if j = i then printfStore (video i) (str i) else video j) h0' hk'
    exact ⟨v, by simp [printfLoop, hi, hv]⟩

/-- If no null byte occurs within the first `m + 1` positions from `i`,
the `printf` loop does not finish within `m` iterations. -/
theorem printfLoop_not_done (str : Nat → Nat) :
    ∀ (m i : Nat) (video : Nat → Nat), (∀ k ≤ m, str (i + k) ≠ 0) →
      printfLoop str m i video = none := by
  intro m
  induction m with
  | zero =>
    intro i video h
    have := h 0 (by omega)
    simp only [Nat.add_zero] at this
    simp [printfLoop, this]
  | succ m ih =>
    intro i video h
    have hi : str i ≠ 0 := by simpa using h 0 (by omega)
    have h' : ∀ k ≤ m, str (i + 1 + k) ≠ 0 := by
      intro k hkm
      rw [show i + 1 + k = i + (k + 1) by omega]
      exact h (k + 1) (by omega)
    simp [printfLoop, hi, ih (i + 1) _ h']

/-- More fuel never changes a result the constructor loop already
produced. -/
theorem ctorLoop_fuel_succ (ctorMem : Nat → Nat) :
    ∀ (fuel i e : Nat) (t : List Nat), ctorLoop ctorMem fuel i e = some t →
      ctorLoop ctorMem (fuel + 1) i e = some t := by
  intro fuel
  induction fuel with
  | zero =>
    intro i e t h
    by_cases hie : i = e <;> simp_all [ctorLoop]
  | succ m ih =>
    intro i e t h
    by_cases hie : i = e
    · simp_all [ctorLoop]
    · rw [ctorLoop_succ _ _ _ _ hie] at h
      cases hrec : ctorLoop ctorMem m (i + 4) e with
      | none => rw [hrec] at h; simp at h
      | some t' =>
        rw [hrec] at h
        simp only [Option.some.injEq] at h
        rw [ctorLoop_succ _ _ _ _ hie, ih (i + 4) e t' hrec]
        simpa using h

theorem ctorLoop_fuel_mono (ctorMem : Nat → Nat) (i e : Nat) (t : List Nat)
    (fuel fuel' : Nat) (hle : fuel ≤ fuel')
    (h : ctorLoop ctorMem fuel i e = some t) :
    ctorLoop ctorMem fuel' i e = some t := by
  induction fuel' with
  | zero => simpa [Nat.le_zero.mp hle] using h
  | succ m ih =>
    rcases Nat.lt_or_ge fuel (m + 1) with hlt | hge
    · exact ctorLoop_fuel_succ ctorMem m i e t (ih (by omega))
    · have : fuel = m + 1 := by omega
      simpa [this] using h

/-! ## Claims -/

/-- C1: the claim states that every boot execution invokes the
constructor table (callConstructors) before kernelMain runs.  The code
does not: loader.s executes only `mov`, `push %eax`, `push %ebx`,
`call kernelMain`, so the event trace of every boot contains the
kernelMain transfer (already after four instructions) but never a
constructor invocation, whatever the table contains.  This contradicts
the repository's own documentation (docs/linker.md: constructors run
before kernelMain, callConstructors is to be called from loader.s). -/
theorem C1_kernelMain_entered_without_ctor_invocation
    (kstack retAddr esp0 eax ebx f n : Nat) (stack video : Nat → Nat) :
    Event.enterKernelMain ∈
        bootEvents kstack retAddr 4 (coldState esp0 eax ebx stack video) ∧
      Event.ctorInvoked f ∉
        bootEvents kstack retAddr n (coldState esp0 eax ebx stack video) :=
  ⟨by rw [bootEvents_four]; simp, no_ctor_event kstack retAddr f n _⟩

/-- C2: for a table of N pointer slots between the boundary addresses,
one call of callConstructors invokes each slot exactly once, in
ascending address order (the invocation trace is exactly the table read
at start, start+4, ..., start+4(N-1)); for N = 0 (start == end) it
performs zero invocations and returns normally. -/
theorem C2_callConstructors_trace (ctorMem : Nat → Nat)
    (start N fuel : Nat) (hfuel : N ≤ fuel) :
    callConstructors ctorMem start (start + 4 * N) fuel =
      some ((List.range N).map fun k => ctorMem (start + 4 * k)) :=
  ctorLoop_fuel_mono ctorMem start (start + 4 * N) _ N fuel hfuel
    (ctorLoop_table ctorMem start N)

theorem C2_witness :
    (0 : Nat) ≤ 2 ∧
      callConstructors (fun a => a) 0 (0 + 4 * 0) 2 = some [] :=
  ⟨by decide, C2_callConstructors_trace (fun a => a) 0 0 2 (by decide)⟩

/-- C3: the boot header constants of loader.s satisfy
magic + flags + checksum ≡ 0 (mod 2^32); the declared flags value is
0x3, the checksum is 0xE4524FFB, and the little-endian byte images of
magic and checksum are 02 B0 AD 1B and FB 4F 52 E4. -/
theorem C3_multiboot_checksum :
    (MAGIC + FLAGS + CHECKSUM) % 2 ^ 32 = 0 ∧ FLAGS = 0x3 ∧
      CHECKSUM = 0xE4524FFB ∧
      leBytes MAGIC = [0x02, 0xB0, 0xAD, 0x1B] ∧
      leBytes CHECKSUM = [0xFB, 0x4F, 0x52, 0xE4] := by
  decide

/-- C4 counterexample: with the 2 MiB stack region starting at
0x200000 (so kernel_stack = 0x400000), the stack pointer observed at
the first instruction of kernelMain is not the kernel_stack address:
the trampoline's two argument pushes and the call's return-address push
have moved it 12 bytes below the region top. -/
theorem C4_counterexample :
    (bootRun (kernelStackAddr 0x200000) 0 4
        (coldState 0 0x2BADB002 0x10000 (fun _ => 0) (fun _ => 0))).esp ≠
      kernelStackAddr 0x200000 := by
  rw [run4_eq _ _ _ _ _ _ _ (by norm_num [kernelStackAddr]) (by norm_num [kernelStackAddr])]
  norm_num [kernelStackAddr]

/-- C4 amended: at the first instruction of kernelMain the machine has
left the trampoline (location kMain) and its stack pointer equals the
top address of the 2 MiB Reserved Stack Region (the kernel_stack
symbol, placed right after the 2 MiB .bss reservation) minus the
12 bytes pushed by the trampoline (two arguments and the return
address); in particular the trampoline set esp to exactly the region
top before those pushes. -/
theorem C4_esp_at_kernelMain (bssStart retAddr esp0 eax ebx : Nat)
    (stack video : Nat → Nat) (h32 : kernelStackAddr bssStart < 2 ^ 32) :
    (bootRun (kernelStackAddr bssStart) retAddr 4
        (coldState esp0 eax ebx stack video)).loc = .kMain ∧
      (bootRun (kernelStackAddr bssStart) retAddr 4
        (coldState esp0 eax ebx stack video)).esp =
        kernelStackAddr bssStart - 12 := by
  rw [run4_eq _ _ _ _ _ _ _ (by simp only [kernelStackAddr]; omega) h32]
  exact ⟨rfl, rfl⟩

theorem C4_witness :
    kernelStackAddr 0x200000 < 2 ^ 32 ∧
      ((bootRun (kernelStackAddr 0x200000) 0 4
          (coldState 0 0x2BADB002 0x10000 (fun _ => 0) (fun _ => 0))).loc = .kMain ∧
        (bootRun (kernelStackAddr 0x200000) 0 4
          (coldState 0 0x2BADB002 0x10000 (fun _ => 0) (fun _ => 0))).esp =
          kernelStackAddr 0x200000 - 12) :=
  ⟨by norm_num [kernelStackAddr],
    C4_esp_at_kernelMain 0x200000 0 0 0x2BADB002 0x10000 (fun _ => 0) (fun _ => 0)
      (by norm_num [kernelStackAddr])⟩

/-- C5: the trampoline forwards the bootloader-delivered register values
unmodified and in order: at the first instruction of kernelMain, the
first (cdecl) parameter slot at esp+4 holds the ebx value (the
execution-arguments pointer) and the second parameter slot at esp+8
holds the eax value (the magic number), for every pair of incoming
values. -/
theorem C5_args_forwarded (bssStart retAddr esp0 eax ebx : Nat)
    (stack video : Nat → Nat) (h32 : kernelStackAddr bssStart < 2 ^ 32) :
    (bootRun (kernelStackAddr bssStart) retAddr 4
        (coldState esp0 eax ebx stack video)).stack
      ((bootRun (kernelStackAddr bssStart) retAddr 4
        (coldState esp0 eax ebx stack video)).esp + 4) = ebx ∧
      (bootRun (kernelStackAddr bssStart) retAddr 4
        (coldState esp0 eax ebx stack video)).stack
        ((bootRun (kernelStackAddr bssStart) retAddr 4
          (coldState esp0 eax ebx stack video)).esp + 8) = eax := by
  have h12 : 12 ≤ kernelStackAddr bssStart := by simp only [kernelStackAddr]; omega
  rw [run4_eq _ _ _ _ _ _ _ h12 h32]
  simp only
  constructor
  · rw [show kernelStackAddr bssStart - 12 + 4 = kernelStackAddr bssStart - 8 by omega,
      if_neg (by omega), if_pos rfl]
  · rw [show kernelStackAddr bssStart - 12 + 8 = kernelStackAddr bssStart - 4 by omega,
      if_neg (by omega), if_neg (by omega), if_pos rfl]

theorem C5_witness :
    kernelStackAddr 0x200000 < 2 ^ 32 ∧
      ((bootRun (kernelStackAddr 0x200000) 0 4
          (coldState 0 0x2BADB002 0x10000 (fun _ => 0) (fun _ => 0))).stack
        ((bootRun (kernelStackAddr 0x200000) 0 4
          (coldState 0 0x2BADB002 0x10000 (fun _ => 0) (fun _ => 0))).esp + 4) = 0x10000 ∧
        (bootRun (kernelStackAddr 0x200000) 0 4
          (coldState 0 0x2BADB002 0x10000 (fun _ => 0) (fun _ => 0))).stack
          ((bootRun (kernelStackAddr 0x200000) 0 4
            (coldState 0 0x2BADB002 0x10000 (fun _ => 0) (fun _ => 0))).esp + 8) = 0x2BADB002) :=
  ⟨by norm_num [kernelStackAddr],
    C5_args_forwarded 0x200000 0 0 0x2BADB002 0x10000 (fun _ => 0) (fun _ => 0)
      (by norm_num [kernelStackAddr])⟩

/-- C6: for every pair of argument values (and any layout), once the
boot has taken five steps — the four loader.s instructions and the
printf of the diagnostic — every later point of the execution is at the
`while(1);` loop: the machine never leaves the terminal loop and never
returns to its caller. -/
theorem C6_terminal_loop (kstack retAddr esp0 eax ebx n : Nat)
    (stack video : Nat → Nat) :
    (bootRun kstack retAddr (5 + n) (coldState esp0 eax ebx stack video)).loc =
      .kLoop := by
  have h5 : (bootRun kstack retAddr 5 (coldState esp0 eax ebx stack video)).loc =
      .kLoop := by
    simp [bootRun, bootStep, coldState, pushWord]
  rw [bootRun_add, bootRun_loop_fixed kstack retAddr _ h5 n]
  exact h5

/-- C7: the claim states that printf leaves every cell's high
(attribute) byte unchanged, for every input string.  The code does not:
`char` is signed on this target, so for a string byte ≥ 0x80 the
expression `(VideoMemory[i] & 0xFF00) | str[i]` sign-extends the byte
and the or sets the whole high byte.  Failing input: the one-character
string 0x80 written over a cell holding 0x0700 (character 0, attribute
0x07): the code stores 0xFF80, while preservation of the attribute byte
would give 0x0780.  This contradicts the code's own comment
("Keep color, replace char") and the spec's contract for the output
collaborator. -/
theorem C7_attribute_clobbered :
    printfList [0x80] 0 (fun _ => 0x0700) 0 = 0xFF80 ∧
      printfList [0x80] 0 (fun _ => 0x0700) 0 ≠ 0x0780 := by
  constructor <;> decide

/-- C8: kernelMain never reads its two parameters: two runs started at
the first instruction of kernelMain with arbitrary (and arbitrarily
different) parameter values, stack pointers and stack contents, but the
same video memory, perform the same video-memory writes at every step
and are at the same control location at every step. -/
theorem C8_kernelMain_ignores_args (kstack retAddr esp esp' eax ebx eax' ebx' n : Nat)
    (stack stack' video : Nat → Nat) :
    (bootRun kstack retAddr n
        { loc := .kMain, esp := esp, eax := eax, ebx := ebx,
          stack := stack, video := video }).video =
      (bootRun kstack retAddr n
        { loc := .kMain, esp := esp', eax := eax', ebx := ebx',
          stack := stack', video := video }).video ∧
    (bootRun kstack retAddr n
        { loc := .kMain, esp := esp, eax := eax, ebx := ebx,
          stack := stack, video := video }).loc =
      (bootRun kstack retAddr n
        { loc := .kMain, esp := esp', eax := eax', ebx := ebx',
          stack := stack', video := video }).loc := by
  have bisim : ∀ (m : Nat) (s t : Mach), s.loc = t.loc → s.video = t.video →
      (bootRun kstack retAddr m s).video = (bootRun kstack retAddr m t).video ∧
      (bootRun kstack retAddr m s).loc = (bootRun kstack retAddr m t).loc := by
    intro m
    induction m with
    | zero => intro s t hloc hv; exact ⟨hv, hloc⟩
    | succ m ih =>
      intro s t hloc hv
      have hstep : (bootStep kstack retAddr s).1.loc = (bootStep kstack retAddr t).1.loc ∧
          (bootStep kstack retAddr s).1.video = (bootStep kstack retAddr t).1.video := by
        cases h : s.loc <;> simp [bootStep, ← hloc, h, hv, pushWord]
      simp only [bootRun]
      exact ih _ _ hstep.1 hstep.2
  exact bisim n _ _ rfl rfl

/-- C9: the bootstrap path is deterministic: any two executions of the
boot step relation that start in the same state coincide at every step
— in particular they perform the same diagnostic output and end in the
same terminal state. -/
theorem C9_deterministic (kstack retAddr : Nat) (f g : Nat → Mach)
    (h0 : f 0 = g 0)
    (hf : ∀ n, BootRel kstack retAddr (f n) (f (n + 1)))
    (hg : ∀ n, BootRel kstack retAddr (g n) (g (n + 1))) :
    ∀ n, f n = g n := by
  intro n
  induction n with
  | zero => exact h0
  | succ m ih =>
    have hfm := hf m
    rw [ih] at hfm
    exact bootRel_det kstack retAddr (g m) _ _ hfm (hg m)

theorem C9_witness :
    (fun n => bootRun 7 3 n (coldState 0 1 2 (fun _ => 0) (fun _ => 0))) 5 =
      (fun n => bootRun 7 3 n (coldState 0 1 2 (fun _ => 0) (fun _ => 0))) 5 :=
  C9_deterministic 7 3
    (fun n => bootRun 7 3 n (coldState 0 1 2 (fun _ => 0) (fun _ => 0)))
    (fun n => bootRun 7 3 n (coldState 0 1 2 (fun _ => 0) (fun _ => 0))) rfl
    (fun n => by
      show BootRel 7 3 (bootRun 7 3 n _) (bootRun 7 3 (n + 1) _)
      rw [bootRun_succ_last]
      exact bootRel_of_step 7 3 _)
    (fun n => by
      show BootRel 7 3 (bootRun 7 3 n _) (bootRun 7 3 (n + 1) _)
      rw [bootRun_succ_last]
      exact bootRel_of_step 7 3 _) 5

/-- C10: the printf loop on a string whose first null byte is at index
n finishes within exactly n iterations (n iterations of fuel suffice,
any fewer do not reach the terminator), and the callConstructors loop
terminates whenever the end boundary is reachable from the start
boundary by whole 4-byte slots (end ≥ start and 4 divides the
distance), within (end − start)/4 iterations. -/
theorem C10_termination :
    (∀ (str : Nat → Nat) (n : Nat) (video : Nat → Nat),
        str n = 0 → (∀ i < n, str i ≠ 0) →
        (∃ v, printf str video n = some v) ∧
          ∀ m < n, printf str video m = none) ∧
      ∀ (ctorMem : Nat → Nat) (startCtors endCtors : Nat),
        startCtors ≤ endCtors → 4 ∣ endCtors - startCtors →
        ∃ t, callConstructors ctorMem startCtors endCtors
          ((endCtors - startCtors) / 4) = some t := by
  constructor
  · intro str n video h0 hk
    constructor
    · exact printfLoop_terminates str n 0 video (by simpa using h0)
        (fun k hkn => by simpa using hk k hkn)
    · intro m hmn
      exact printfLoop_not_done str m 0 video
        (fun k hkm => by simpa using hk k (by omega))
  · intro ctorMem s e hse hdvd
    obtain ⟨N, hN⟩ := hdvd
    have he : e = s + 4 * N := by omega
    have hdiv : (e - s) / 4 = N := by omega
    subst he
    rw [hdiv]
    exact ⟨_, ctorLoop_table ctorMem s N⟩

theorem C10_witness :
    ((∃ v, printf (fun i => if i < 2 then 65 else 0) (fun _ => 0) 2 = some v) ∧
        ∀ m < 2, printf (fun i => if i < 2 then 65 else 0) (fun _ => 0) m = none) ∧
      ∃ t, callConstructors (fun a => a) 0 8 ((8 - 0) / 4) = some t :=
  ⟨C10_termination.1 (fun i => if i < 2 then 65 else 0) 2 (fun _ => 0)
      (by decide) (by decide),
    C10_termination.2 (fun a => a) 0 8 (by decide) (by decide)⟩

end UniOS
